import Mathlib

/-!
Shallow embedding of the FHIR rule-evaluation engine of
`src/lib/fhir-validation.ts`: the result-collapsing extractor
`extractFHIRData`, the operator dispatcher `evaluateCondition`, and the
rule executor `executeRuleAgainstFHIR` with its per-condition scan.

JavaScript dynamic values are modelled by the inductive type `Value`
(`vNull` stands for both `null` and `undefined`, which this engine never
distinguishes).  The external `fhirpath.evaluate` library call and the
JavaScript `RegExp` engine are modelled as explicit function parameters:
the code under verification only wraps them, so every theorem quantifies
over the wrapped oracle.  JavaScript exceptions are modelled with
`Except String`: a `.error m` result stands for a thrown exception whose
template-literal rendering is `m`.
-/

/-- A JavaScript value as this engine manipulates it.  `vNull` models both
`null` and `undefined`; numbers are modelled as integers (every numeric
literal appearing in rules and sample records of the repository is
integral). -/
inductive Value : Type where
  | vNull : Value
  | vStr : String → Value
  | vNum : Int → Value
  | vBool : Bool → Value
  | vArr : List Value → Value
  | vObj : List (String × Value) → Value
deriving Repr

/-- `=== null || === undefined` check of the source (both collapse to
`vNull` here). -/
def Value.isNull : Value → Bool
  | .vNull => true
  | _ => false

/-- JavaScript strict equality `===` restricted to the values this engine
compares: primitives compare structurally; a comparison touching an array
or object models reference equality between an extracted value and an
expected value that originate from different allocations, hence `false`. -/
def strictEq : Value → Value → Bool
  | .vNull, .vNull => true
  | .vStr a, .vStr b => a == b
  | .vNum a, .vNum b => a == b
  | .vBool a, .vBool b => a == b
  | _, _ => false

mutual
/-- JavaScript `String(x)` coercion on `Value`. -/
def jsToString : Value → String
  | .vNull => "null"
  | .vStr s => s
  | .vNum n => toString n
  | .vBool b => if b then "true" else "false"
  | .vArr xs => jsArrString xs
  | .vObj _ => "[object Object]"

/-- `Array.prototype.toString`: elements joined by commas, `null` and
`undefined` elements rendered as the empty string. -/
def jsArrString : List Value → String
  | [] => ""
  | [Value.vNull] => ""
  | [x] => jsToString x
  | Value.vNull :: xs => "," ++ jsArrString xs
  | x :: xs => jsToString x ++ "," ++ jsArrString xs
end

/-- Leading-whitespace drop on a character list. -/
def dropWsp : List Char → List Char
  | [] => []
  | c :: cs => if c.isWhitespace then dropWsp cs else c :: cs

/-- Whitespace trim on both ends (JavaScript `String.prototype.trim`). -/
def trimChars (cs : List Char) : List Char :=
  ((dropWsp cs).reverse |> dropWsp).reverse

/-- ASCII lower-casing of one character (JavaScript `toLowerCase` on the
character sets this engine compares). -/
def lowerChar (c : Char) : Char :=
  if 65 ≤ c.toNat && c.toNat ≤ 90 then Char.ofNat (c.toNat + 32) else c

/-- JavaScript `s.toLowerCase()`. -/
def lowerStr (s : String) : String :=
  String.mk (s.toList.map lowerChar)

/-- JavaScript `s.split(',')`, accumulator style: `acc` is the reversed
current chunk. -/
def splitCommaAux : List Char → List Char → List String
  | [], acc => [String.mk acc.reverse]
  | c :: cs, acc =>
    if c == ',' then String.mk acc.reverse :: splitCommaAux cs []
    else splitCommaAux cs (c :: acc)

/-- JavaScript `s.split(',')`. -/
def splitComma (s : String) : List String :=
  splitCommaAux s.toList []

/-- JavaScript `s.trim()`. -/
def trimStr (s : String) : String :=
  String.mk (trimChars s.toList)

/-- Digit run of a decimal literal, accumulator style; `none` when a
non-digit character appears. -/
def digitsVal : List Char → Nat → Option Nat
  | [], acc => some acc
  | c :: cs, acc =>
    if c.isDigit then digitsVal cs (acc * 10 + (c.toNat - 48)) else none

/-- JavaScript `Number(s)` on a string, restricted to integer literals:
surrounding whitespace is trimmed, the empty string coerces to `0`, an
optional sign precedes a digit run, anything else is NaN (`none`). -/
def parseIntStr (s : String) : Option Int :=
  match trimChars s.toList with
  | [] => some 0
  | '-' :: cs =>
    match cs with
    | [] => none
    | _ => (digitsVal cs 0).map (fun n => -(n : Int))
  | '+' :: cs =>
    match cs with
    | [] => none
    | _ => (digitsVal cs 0).map (fun n => (n : Int))
  | cs => (digitsVal cs 0).map (fun n => (n : Int))

/-- JavaScript `Number(x)` coercion; `none` models NaN. -/
def jsToNumber : Value → Option Int
  | .vNull => some 0
  | .vBool b => some (if b then 1 else 0)
  | .vNum n => some n
  | .vStr s => parseIntStr s
  | .vArr xs => parseIntStr (jsArrString xs)
  | .vObj _ => none

/-- Does the second list start with the first? -/
def chunkLead : List Char → List Char → Bool
  | [], _ => true
  | _ :: _, [] => false
  | a :: as, b :: bs => a == b && chunkLead as bs

/-- Does `pat` occur contiguously inside the list? -/
def chunkInside (pat : List Char) : List Char → Bool
  | [] => chunkLead pat []
  | b :: bs => chunkLead pat (b :: bs) || chunkInside pat bs

/-- JavaScript `s.includes(pat)`: substring containment. -/
def strIncludes (s pat : String) : Bool :=
  chunkInside pat.toList s.toList

/-- A FHIR resource: its `resourceType` discriminant (the only field the
executor reads directly) together with the rest of its content, which is
consumed only through the abstract fhirpath evaluator. -/
structure Resource : Type where
  resourceType : String
  payload : Value
deriving Repr

/-- A rule condition as authored in the builder:
`{ resourceType, path, operator, value }`. -/
structure Condition : Type where
  resourceType : String
  path : String
  operator : String
  value : Value
deriving Repr

/-- One entry of `executedConditions`. -/
structure ExecutedCondition : Type where
  condition : Condition
  result : Bool
  extractedValue : Value
  error : Option String
deriving Repr

/-- The rule-level logic operator. -/
inductive LogicOp : Type where
  | AND : LogicOp
  | OR : LogicOp
deriving Repr, DecidableEq

/-- `RuleExecutionResult` without the wall-clock `executionTimeMs` field,
which is not a function of the inputs. -/
structure RuleExecutionResult : Type where
  conditionMet : Bool
  executedConditions : List ExecutedCondition
  overallResult : Bool
  logicOperator : LogicOp
deriving Repr

/-- The external `fhirpath.evaluate(resource, path)` call: it may return any
value (typically an array) or throw. -/
def FhirEval : Type := Resource → String → Except String Value

/-- `extractFHIRData(resource, path)`: collapse a one-element array result to
its element, return any other value unchanged, and turn a thrown evaluation
error into `null`. -/
def extractFHIRData (fhirEval : FhirEval) (resource : Resource) (path : String) : Value :=
  match fhirEval resource path with
  | .ok result =>
    match result with
    | .vArr xs =>
      match xs with
      | [x] => x
      | _ => .vArr xs
    | v => v
  | .error _ => .vNull

/-- The JavaScript `new RegExp(pattern, flags)` constructor followed by
`.test`: `none` models a constructor that throws on a malformed pattern,
`some test` a compiled regex.  Abstract: the engine only wraps it. -/
def RegexCompile : Type := String → String → Option (String → Bool)

/-- `evaluateCondition(extractedValue, operator, expectedValue)`.  The
leading guard is the source's
`if (extractedValue === null || extractedValue === undefined) return operator === 'exists' ? false : false;`
(both arms of that ternary are `false`).  The `switch` is a chain of strict
string comparisons on `operator`. -/
def evaluateCondition (regexCompile : RegexCompile)
    (extractedValue : Value) (operator : String) (expectedValue : Value) : Bool :=
  if extractedValue.isNull then
    if operator == "exists" then false else false
  else if operator == "equals" || operator == "=" then
    strictEq extractedValue expectedValue
  else if operator == "not_equals" || operator == "!=" then
    !(strictEq extractedValue expectedValue)
  else if operator == "contains" then
    strIncludes (lowerStr (jsToString extractedValue)) (lowerStr (jsToString expectedValue))
  else if operator == "in" then
    match expectedValue with
    | .vArr xs => xs.any (fun x => strictEq x extractedValue)
    | _ =>
      ((splitComma (jsToString expectedValue)).map trimStr).contains
        (jsToString extractedValue)
  else if operator == "greater" || operator == ">" then
    match jsToNumber extractedValue, jsToNumber expectedValue with
    | some a, some b => decide (a > b)
    | _, _ => false
  else if operator == "less" || operator == "<" then
    match jsToNumber extractedValue, jsToNumber expectedValue with
    | some a, some b => decide (a < b)
    | _, _ => false
  else if operator == "exists" then
    !(extractedValue.isNull)
  else if operator == "matches" then
    match regexCompile (jsToString expectedValue) "i" with
    | none => false
    | some test => test (jsToString extractedValue)
  else
    false

/-- Extraction step of the executor's inner loop, allowed to throw (models
a JavaScript exception escaping while extracting for one record). -/
def ExtractFn : Type := Resource → String → Except String Value

/-- Evaluation step of the executor's inner loop, allowed to throw. -/
def EvalFn : Type := Value → String → Value → Except String Bool

/-- `matchingResources`: the records of the condition's resource type, in
input order. -/
def matchingResources (cond : Condition) (fhirResources : List Resource) : List Resource :=
  fhirResources.filter (fun resource => resource.resourceType == cond.resourceType)

/-- The executor's inner `for (const resource of matchingResources)` loop.
The second argument threads the mutable `conditionResult.extractedValue`
(initially `null`); it is overwritten as soon as extraction for a record
succeeds, before evaluation runs.  A thrown exception ends the loop with
`result=false` and `error = "Execution error: <message>"`, keeping whatever
`extractedValue` was last assigned. -/
def scanResources (extractF : ExtractFn) (evalF : EvalFn) (cond : Condition) :
    List Resource → Value → Bool × Value × Option String
  | [], ev => (false, ev, none)
  | resource :: rest, ev =>
    match extractF resource cond.path with
    | .error m => (false, ev, some ("Execution error: " ++ m))
    | .ok v =>
      match evalF v cond.operator cond.value with
      | .error m => (false, v, some ("Execution error: " ++ m))
      | .ok true => (true, v, none)
      | .ok false => scanResources extractF evalF cond rest v

/-- The body of the executor's outer loop for one condition: filter by
resource type, report `No <resourceType> resources found` when nothing
matches, otherwise scan the matching records. -/
def runCondition (extractF : ExtractFn) (evalF : EvalFn)
    (cond : Condition) (fhirResources : List Resource) : ExecutedCondition :=
  let matching := matchingResources cond fhirResources
  if matching.length == 0 then
    ⟨cond, false, Value.vNull, some ("No " ++ cond.resourceType ++ " resources found")⟩
  else
    let out := scanResources extractF evalF cond matching Value.vNull
    ⟨cond, out.1, out.2.1, out.2.2⟩

/-- `executeRuleAgainstFHIR(conditions, fhirResources, logicOperator)`:
each condition is run independently, and the per-condition booleans are
aggregated with `every` under AND and `some` under OR.  `conditionMet`
duplicates `overallResult` as in the source. -/
def executeRuleAgainstFHIR (extractF : ExtractFn) (evalF : EvalFn)
    (conditions : List Condition) (fhirResources : List Resource)
    (logicOperator : LogicOp) : RuleExecutionResult :=
  let executedConditions :=
    conditions.map (fun cond => runCondition extractF evalF cond fhirResources)
  let overallResult :=
    match logicOperator with
    | .AND => executedConditions.all (fun c => c.result)
    | .OR => executedConditions.any (fun c => c.result)
  ⟨overallResult, executedConditions, overallResult, logicOperator⟩

/-- Extraction as the executor actually performs it: `extractFHIRData`
catches every exception of the underlying fhirpath call, so it never
throws. -/
def engineExtract (fhirEval : FhirEval) : ExtractFn :=
  fun resource path => .ok (extractFHIRData fhirEval resource path)

/-- Evaluation as the executor actually performs it: `evaluateCondition`
is total on the modelled value domain, so it never throws. -/
def engineEval (regexCompile : RegexCompile) : EvalFn :=
  fun v operator expected => .ok (evaluateCondition regexCompile v operator expected)

/-- One extract-then-evaluate step of the inner loop, as an exceptionable
computation; used to phrase which record raised an exception. -/
def condStep (extractF : ExtractFn) (evalF : EvalFn)
    (cond : Condition) (resource : Resource) : Except String Bool :=
  match extractF resource cond.path with
  | .error m => .error m
  | .ok v => evalF v cond.operator cond.value

/-- The operator names recognised by `evaluateCondition`'s `switch`. -/
def recognizedOperators : List String :=
  ["equals", "=", "not_equals", "!=", "contains", "in",
   "greater", ">", "less", "<", "exists", "matches"]

/-- C1: `executeRuleAgainstFHIR` aggregates the per-condition results with
`every` under AND and `some` under OR; on an empty condition list the
overall result is `true` under AND and `false` under OR. -/
theorem executeRule_aggregation (extractF : ExtractFn) (evalF : EvalFn)
    (conditions : List Condition) (fhirResources : List Resource) :
    ((executeRuleAgainstFHIR extractF evalF conditions fhirResources .AND).overallResult
      = conditions.all (fun c => (runCondition extractF evalF c fhirResources).result))
    ∧ ((executeRuleAgainstFHIR extractF evalF conditions fhirResources .OR).overallResult
      = conditions.any (fun c => (runCondition extractF evalF c fhirResources).result))
    ∧ (executeRuleAgainstFHIR extractF evalF [] fhirResources .AND).overallResult = true
    ∧ (executeRuleAgainstFHIR extractF evalF [] fhirResources .OR).overallResult = false := by
  have hall : ∀ (l : List Condition),
      ((l.map (fun c => runCondition extractF evalF c fhirResources)).all fun c => c.result)
        = l.all fun c => (runCondition extractF evalF c fhirResources).result := by
    intro l; induction l with
    | nil => rfl
    | cons a t ih => simp [ih]
  have hany : ∀ (l : List Condition),
      ((l.map (fun c => runCondition extractF evalF c fhirResources)).any fun c => c.result)
        = l.any fun c => (runCondition extractF evalF c fhirResources).result := by
    intro l; induction l with
    | nil => rfl
    | cons a t ih => simp [ih]
  exact ⟨hall conditions, hany conditions, rfl, rfl⟩

/-- If every matching record evaluates to `false`, the inner scan ends with
`result=false`, no error, and the last extracted value threaded through. -/
theorem scanResources_all_false (fhirEval : FhirEval) (rc : RegexCompile)
    (cond : Condition) (l : List Resource) (ev : Value)
    (h : ∀ x ∈ l,
      evaluateCondition rc (extractFHIRData fhirEval x cond.path) cond.operator cond.value
        = false) :
    scanResources (engineExtract fhirEval) (engineEval rc) cond l ev
      = (false, (l.map (fun x => extractFHIRData fhirEval x cond.path)).getLastD ev, none) := by
  induction l generalizing ev with
  | nil => simp [scanResources]
  | cons x rest ih =>
    have hx := h x (by simp)
    simp only [scanResources, engineExtract, engineEval, hx, List.map_cons,
      List.getLastD_cons]
    exact ih _ (fun y hy => h y (by simp [hy]))

/-- The inner scan short-circuits at the first matching record whose
extracted value satisfies the operator. -/
theorem scanResources_first_true (fhirEval : FhirEval) (rc : RegexCompile)
    (cond : Condition) (l1 : List Resource) (r : Resource) (l2 : List Resource)
    (ev : Value)
    (h1 : ∀ x ∈ l1,
      evaluateCondition rc (extractFHIRData fhirEval x cond.path) cond.operator cond.value
        = false)
    (h2 : evaluateCondition rc (extractFHIRData fhirEval r cond.path) cond.operator cond.value
        = true) :
    scanResources (engineExtract fhirEval) (engineEval rc) cond (l1 ++ r :: l2) ev
      = (true, extractFHIRData fhirEval r cond.path, none) := by
  induction l1 generalizing ev with
  | nil => simp [scanResources, engineExtract, engineEval, h2]
  | cons x rest ih =>
    have hx := h1 x (by simp)
    simp only [List.cons_append, scanResources, engineExtract, engineEval, hx]
    exact ih _ (fun y hy => h1 y (by simp [hy]))

/-- C2: with at least one record of the condition's resource type, the
runner scans the matching records in order; the first record whose
extracted value satisfies the operator yields `result=true` with that
record's extracted value and no further scanning, and when no matching
record satisfies the condition the outcome is `result=false` with the
value extracted from the last record examined. -/
theorem runCondition_scan_semantics (fhirEval : FhirEval) (rc : RegexCompile)
    (cond : Condition) (fhirResources : List Resource) :
    (∀ l1 r l2,
      matchingResources cond fhirResources = l1 ++ r :: l2 →
      (∀ x ∈ l1,
        evaluateCondition rc (extractFHIRData fhirEval x cond.path) cond.operator cond.value
          = false) →
      evaluateCondition rc (extractFHIRData fhirEval r cond.path) cond.operator cond.value
          = true →
      runCondition (engineExtract fhirEval) (engineEval rc) cond fhirResources
        = ⟨cond, true, extractFHIRData fhirEval r cond.path, none⟩)
    ∧ (matchingResources cond fhirResources ≠ [] →
      (∀ x ∈ matchingResources cond fhirResources,
        evaluateCondition rc (extractFHIRData fhirEval x cond.path) cond.operator cond.value
          = false) →
      runCondition (engineExtract fhirEval) (engineEval rc) cond fhirResources
        = ⟨cond, false,
            ((matchingResources cond fhirResources).map
              (fun x => extractFHIRData fhirEval x cond.path)).getLastD Value.vNull,
            none⟩) := by
  constructor
  · intro l1 r l2 hm h1 h2
    have hs := scanResources_first_true fhirEval rc cond l1 r l2 Value.vNull h1 h2
    simp [runCondition, hm, hs]
  · intro hne hall
    have hs := scanResources_all_false fhirEval rc cond
      (matchingResources cond fhirResources) Value.vNull hall
    simp [runCondition, hs, hne]

/-- A thrown extraction/evaluation exception ends the inner scan with
`result=false` and the catch clause's `Execution error: <message>`
diagnostic. -/
theorem scanResources_error (extractF : ExtractFn) (evalF : EvalFn)
    (cond : Condition) (l1 : List Resource) (r : Resource) (l2 : List Resource)
    (m : String) (ev : Value)
    (h1 : ∀ x ∈ l1, condStep extractF evalF cond x = .ok false)
    (h2 : condStep extractF evalF cond r = .error m) :
    ∃ ev2, scanResources extractF evalF cond (l1 ++ r :: l2) ev
      = (false, ev2, some ("Execution error: " ++ m)) := by
  induction l1 generalizing ev with
  | nil =>
    cases hext : extractF r cond.path with
    | error m2 =>
      have hm : m2 = m := by simpa [condStep, hext] using h2
      subst hm
      exact ⟨ev, by simp [scanResources, hext]⟩
    | ok v =>
      have hev : evalF v cond.operator cond.value = .error m := by
        simpa [condStep, hext] using h2
      exact ⟨v, by simp [scanResources, hext, hev]⟩
  | cons x rest ih =>
    have hx := h1 x (by simp)
    cases hext : extractF x cond.path with
    | error m2 =>
      have hfalse : False := by simp [condStep, hext] at hx
      exact hfalse.elim
    | ok v =>
      have hev : evalF v cond.operator cond.value = .ok false := by
        simpa [condStep, hext] using hx
      obtain ⟨ev2, hrec⟩ := ih v (fun y hy => h1 y (by simp [hy]))
      exact ⟨ev2, by simp [scanResources, hext, hev, hrec]⟩

/-- C5: a condition whose resource type matches no record resolves to
`result=false` with the non-empty diagnostic
`No <resourceType> resources found`, recorded in the execution result. -/
theorem executeRule_no_matching (extractF : ExtractFn) (evalF : EvalFn)
    (conditions : List Condition) (fhirResources : List Resource) (op : LogicOp)
    (i : Nat) (hi : i < conditions.length)
    (hf : matchingResources conditions[i] fhirResources = []) :
    (executeRuleAgainstFHIR extractF evalF conditions fhirResources op).executedConditions[i]?
      = some ⟨conditions[i], false, Value.vNull,
          some ("No " ++ conditions[i].resourceType ++ " resources found")⟩
    ∧ ("No " ++ conditions[i].resourceType ++ " resources found") ≠ "" := by
  constructor
  · have hm : (executeRuleAgainstFHIR extractF evalF conditions fhirResources op).executedConditions[i]?
        = some (runCondition extractF evalF conditions[i] fhirResources) := by
      show (conditions.map (fun c => runCondition extractF evalF c fhirResources))[i]?
        = some (runCondition extractF evalF conditions[i] fhirResources)
      simp [List.getElem?_map, List.getElem?_eq_getElem hi]
    rw [hm, runCondition, hf]
    rfl
  · intro hc
    have h3 : "No ".length = 3 := by decide
    have h0 : "".length = 0 := by decide
    have hl := congrArg String.length hc
    rw [String.length_append, String.length_append, h3, h0] at hl
    omega

/-- C6: the executor returns a result for every well-formed input (one
entry per condition); an exception raised while extracting or evaluating
a condition is caught and recorded on that condition as
`Execution error: <message>` with `result=false`, every condition is
evaluated independently, and the aggregate ranges over all recorded
entries. -/
theorem executeRule_catches_errors (extractF : ExtractFn) (evalF : EvalFn)
    (conditions : List Condition) (fhirResources : List Resource) (op : LogicOp) :
    ((executeRuleAgainstFHIR extractF evalF conditions fhirResources op).executedConditions.length
      = conditions.length)
    ∧ (∀ i (hi : i < conditions.length), ∀ l1 r l2 m,
        matchingResources conditions[i] fhirResources = l1 ++ r :: l2 →
        (∀ x ∈ l1, condStep extractF evalF conditions[i] x = .ok false) →
        condStep extractF evalF conditions[i] r = .error m →
        ∃ ev,
          (executeRuleAgainstFHIR extractF evalF conditions fhirResources op).executedConditions[i]?
            = some ⟨conditions[i], false, ev, some ("Execution error: " ++ m)⟩)
    ∧ (∀ i (hi : i < conditions.length),
        (executeRuleAgainstFHIR extractF evalF conditions fhirResources op).executedConditions[i]?
          = some (runCondition extractF evalF conditions[i] fhirResources))
    ∧ ((executeRuleAgainstFHIR extractF evalF conditions fhirResources op).overallResult
        = match op with
          | .AND => (executeRuleAgainstFHIR extractF evalF conditions
              fhirResources op).executedConditions.all (fun c => c.result)
          | .OR => (executeRuleAgainstFHIR extractF evalF conditions
              fhirResources op).executedConditions.any (fun c => c.result)) := by
  have hmap : ∀ i (hi : i < conditions.length),
      (executeRuleAgainstFHIR extractF evalF conditions fhirResources op).executedConditions[i]?
        = some (runCondition extractF evalF conditions[i] fhirResources) := by
    intro i hi
    show (conditions.map (fun c => runCondition extractF evalF c fhirResources))[i]?
      = some (runCondition extractF evalF conditions[i] fhirResources)
    simp [List.getElem?_map, List.getElem?_eq_getElem hi]
  refine ⟨by simp [executeRuleAgainstFHIR], ?_, hmap, by cases op <;> rfl⟩
  intro i hi l1 r l2 m hm h1 h2
  obtain ⟨ev2, hscan⟩ :=
    scanResources_error extractF evalF conditions[i] l1 r l2 m Value.vNull h1 h2
  refine ⟨ev2, ?_⟩
  rw [hmap i hi, runCondition, hm]
  simp [hscan]

/-- C4 counterexample: a `null` extracted value makes `not_equals` return
`false` even against a non-null expected value — the guard at the top of
`evaluateCondition` returns `false` for every operator, with no
`not_equals` exemption.  The claim asserts `true` here. -/
theorem notEquals_null_counterexample :
    evaluateCondition (fun _ _ => none) Value.vNull "not_equals" (Value.vStr "active")
      = false := by decide

/-- C4 amended: for a non-null extracted value, `not_equals` returns the
negation of strict equality; for a `null`/`undefined` extracted value it
returns `false` like every other operator (the fail-closed guard has no
`not_equals` exemption). -/
theorem notEquals_semantics (rc : RegexCompile) (v e : Value)
    (hv : v.isNull = false) :
    (evaluateCondition rc v "not_equals" e = !(strictEq v e))
    ∧ evaluateCondition rc Value.vNull "not_equals" e = false := by
  constructor
  · simp [evaluateCondition, hv]
  · simp [evaluateCondition, Value.isNull]

/-- C4 witness. -/
theorem notEquals_semantics_witness :
    Value.isNull (Value.vStr "J06.9") = false
    ∧ ((evaluateCondition (fun _ _ => none) (Value.vStr "J06.9") "not_equals" (Value.vStr "U07.1")
          = !(strictEq (Value.vStr "J06.9") (Value.vStr "U07.1")))
        ∧ evaluateCondition (fun _ _ => none) Value.vNull "not_equals" (Value.vStr "U07.1")
          = false) :=
  ⟨by decide, notEquals_semantics (fun _ _ => none) (Value.vStr "J06.9") (Value.vStr "U07.1")
      (by decide)⟩

/-- C7: an operator name outside the recognised set falls through the whole
`switch` to the `default: return false` arm, for every extracted and
expected value (including `null`, where the guard also returns `false`). -/
theorem unrecognized_operator_fail_closed (rc : RegexCompile) (v e : Value)
    (op : String) (h : op ∉ recognizedOperators) :
    evaluateCondition rc v op e = false := by
  simp only [recognizedOperators, List.mem_cons, List.not_mem_nil, or_false,
    not_or] at h
  obtain ⟨h1, h2, h3, h4, h5, h6, h7, h8, h9, h10, h11, h12⟩ := h
  have e1 : (op == "equals") = false := beq_eq_false_iff_ne.mpr h1
  have e2 : (op == "=") = false := beq_eq_false_iff_ne.mpr h2
  have e3 : (op == "not_equals") = false := beq_eq_false_iff_ne.mpr h3
  have e4 : (op == "!=") = false := beq_eq_false_iff_ne.mpr h4
  have e5 : (op == "contains") = false := beq_eq_false_iff_ne.mpr h5
  have e6 : (op == "in") = false := beq_eq_false_iff_ne.mpr h6
  have e7 : (op == "greater") = false := beq_eq_false_iff_ne.mpr h7
  have e8 : (op == ">") = false := beq_eq_false_iff_ne.mpr h8
  have e9 : (op == "less") = false := beq_eq_false_iff_ne.mpr h9
  have e10 : (op == "<") = false := beq_eq_false_iff_ne.mpr h10
  have e11 : (op == "exists") = false := beq_eq_false_iff_ne.mpr h11
  have e12 : (op == "matches") = false := beq_eq_false_iff_ne.mpr h12
  cases hn : v.isNull <;>
    simp [evaluateCondition, hn, e1, e2, e3, e4, e5, e6, e7, e8, e9, e10, e11, e12]

/-- C7 witness. -/
theorem unrecognized_operator_fail_closed_witness :
    "starts_with" ∉ recognizedOperators
    ∧ evaluateCondition (fun _ _ => none) (Value.vStr "U07.1") "starts_with"
        (Value.vStr "U07") = false :=
  ⟨by decide, unrecognized_operator_fail_closed (fun _ _ => none) (Value.vStr "U07.1")
      (Value.vStr "U07") "starts_with" (by decide)⟩

/-- C8: for a non-null extracted value, `matches` compiles the stringified
expected value as a regular expression with the case-insensitive `"i"`
flag and tests the stringified extracted value; a malformed pattern (the
constructor throws) is caught and yields `false`. -/
theorem matches_regex_semantics (rc : RegexCompile) (v e : Value)
    (hv : v.isNull = false) :
    (rc (jsToString e) "i" = none →
      evaluateCondition rc v "matches" e = false)
    ∧ (∀ t, rc (jsToString e) "i" = some t →
      evaluateCondition rc v "matches" e = t (jsToString v)) := by
  constructor
  · intro hc
    simp [evaluateCondition, hv, hc]
  · intro t hc
    simp [evaluateCondition, hv, hc]

/-- C8 witness. -/
theorem matches_regex_semantics_witness :
    Value.isNull (Value.vStr "COVID-19") = false
    ∧ ((fun _ _ => (none : Option (String → Bool))) (jsToString (Value.vStr "[")) "i" = none →
        evaluateCondition (fun _ _ => none) (Value.vStr "COVID-19") "matches" (Value.vStr "[")
          = false) :=
  ⟨by decide,
   (matches_regex_semantics (fun _ _ => none) (Value.vStr "COVID-19") (Value.vStr "[")
      (by decide)).1⟩

/-- C9: `greater` and `less` numerically coerce both sides (JavaScript
`Number`, `none` modelling NaN) and compare with `>` and `<`; a
non-numeric coercion on either side fails closed, e.g.
`"5" greater "3"` is `true` and `"abc" greater "3"` is `false`. -/
theorem numeric_comparison_semantics (rc : RegexCompile) :
    (∀ v e : Value, v.isNull = false →
      evaluateCondition rc v "greater" e
        = match jsToNumber v, jsToNumber e with
          | some a, some b => decide (a > b)
          | _, _ => false)
    ∧ (∀ v e : Value, v.isNull = false →
      evaluateCondition rc v "less" e
        = match jsToNumber v, jsToNumber e with
          | some a, some b => decide (a < b)
          | _, _ => false)
    ∧ evaluateCondition rc (Value.vStr "5") "greater" (Value.vStr "3") = true
    ∧ evaluateCondition rc (Value.vStr "abc") "greater" (Value.vStr "3") = false := by
  have hg : ∀ v e : Value, v.isNull = false →
      evaluateCondition rc v "greater" e
        = match jsToNumber v, jsToNumber e with
          | some a, some b => decide (a > b)
          | _, _ => false := by
    intro v e hv
    simp [evaluateCondition, hv]
  have hl : ∀ v e : Value, v.isNull = false →
      evaluateCondition rc v "less" e
        = match jsToNumber v, jsToNumber e with
          | some a, some b => decide (a < b)
          | _, _ => false := by
    intro v e hv
    simp [evaluateCondition, hv]
  refine ⟨hg, hl, ?_, ?_⟩
  · rw [hg (Value.vStr "5") (Value.vStr "3") (by decide)]
    decide
  · rw [hg (Value.vStr "abc") (Value.vStr "3") (by decide)]
    decide

/-- C9 witness. -/
theorem numeric_comparison_semantics_witness :
    evaluateCondition (fun _ _ => none) (Value.vStr "5") "greater" (Value.vStr "3") = true
    ∧ evaluateCondition (fun _ _ => none) (Value.vStr "abc") "greater" (Value.vStr "3")
        = false :=
  ⟨(numeric_comparison_semantics (fun _ _ => none)).2.2.1,
   (numeric_comparison_semantics (fun _ _ => none)).2.2.2⟩

/-- C3 counterexample: when the traversal yields no values the fhirpath
call returns an empty array, whose length is not 1, so `extractFHIRData`
returns that empty array — not `null` as the claim states. -/
theorem extract_none_counterexample :
    extractFHIRData (fun _ _ => Except.ok (Value.vArr []))
        ⟨"Patient", Value.vNull⟩ "Patient.name.family" = Value.vArr []
    ∧ Value.vArr [] ≠ Value.vNull := by
  constructor
  · rfl
  · intro hc
    cases hc

/-- C3 amended: extraction returns the single value directly when the
traversal yields exactly one value, the list when it yields any other
number of values (including the empty list when it yields none), and
`null` only when the underlying evaluation throws. -/
theorem extract_collapsing_semantics (fhirEval : FhirEval) (r : Resource)
    (p : String) :
    (∀ x, fhirEval r p = .ok (.vArr [x]) → extractFHIRData fhirEval r p = x)
    ∧ (∀ xs, fhirEval r p = .ok (.vArr xs) → xs.length ≠ 1 →
        extractFHIRData fhirEval r p = .vArr xs)
    ∧ (fhirEval r p = .ok (.vArr []) → extractFHIRData fhirEval r p = .vArr [])
    ∧ (∀ m, fhirEval r p = .error m → extractFHIRData fhirEval r p = .vNull) := by
  refine ⟨?_, ?_, ?_, ?_⟩
  · intro x hx
    simp [extractFHIRData, hx]
  · intro xs hx hlen
    rw [extractFHIRData, hx]
    match xs, hlen with
    | [], _ => rfl
    | x :: y :: t, _ => rfl
    | [x], h => exact absurd rfl h
  · intro hx
    simp [extractFHIRData, hx]
  · intro m hx
    simp [extractFHIRData, hx]

/-- C3 witness. -/
theorem extract_collapsing_semantics_witness :
    ((fun _ _ => Except.ok (Value.vArr [Value.vStr "U07.1"])) : FhirEval)
        ⟨"Condition", Value.vNull⟩ "Condition.code.coding.code"
      = Except.ok (Value.vArr [Value.vStr "U07.1"])
    ∧ extractFHIRData (fun _ _ => Except.ok (Value.vArr [Value.vStr "U07.1"]))
        ⟨"Condition", Value.vNull⟩ "Condition.code.coding.code" = Value.vStr "U07.1" :=
  ⟨rfl,
   (extract_collapsing_semantics (fun _ _ => Except.ok (Value.vArr [Value.vStr "U07.1"]))
      ⟨"Condition", Value.vNull⟩ "Condition.code.coding.code").1 (Value.vStr "U07.1") rfl⟩

/-- C10: a traversal that yields zero values makes `extractFHIRData`
return the empty array rather than `null`; the empty array is not
caught by the null guard of `evaluateCondition`, so the `exists`
operator evaluates to `true` on it. -/
theorem extract_empty_exists_true (rc : RegexCompile) (fhirEval : FhirEval)
    (r : Resource) (p : String) (e : Value)
    (h : fhirEval r p = Except.ok (Value.vArr [])) :
    extractFHIRData fhirEval r p = Value.vArr []
    ∧ Value.isNull (extractFHIRData fhirEval r p) = false
    ∧ evaluateCondition rc (extractFHIRData fhirEval r p) "exists" e = true := by
  have hx : extractFHIRData fhirEval r p = Value.vArr [] := by
    simp [extractFHIRData, h]
  refine ⟨hx, ?_, ?_⟩
  · rw [hx]; rfl
  · rw [hx]; simp [evaluateCondition, Value.isNull]

/-- C10 witness. -/
theorem extract_empty_exists_true_witness :
    ((fun _ _ => Except.ok (Value.vArr [])) : FhirEval)
        ⟨"Observation", Value.vNull⟩ "Observation.valueQuantity.value"
      = Except.ok (Value.vArr [])
    ∧ evaluateCondition (fun _ _ => none)
        (extractFHIRData (fun _ _ => Except.ok (Value.vArr []))
          ⟨"Observation", Value.vNull⟩ "Observation.valueQuantity.value")
        "exists" Value.vNull = true :=
  ⟨rfl,
   (extract_empty_exists_true (fun _ _ => none) (fun _ _ => Except.ok (Value.vArr []))
      ⟨"Observation", Value.vNull⟩ "Observation.valueQuantity.value" Value.vNull rfl).2.2⟩

/-- C2 witness: two Condition records; the first does not satisfy the
operator, the second does, and the runner reports the second record's
extracted value. -/
theorem runCondition_scan_semantics_witness :
    matchingResources
        ⟨"Condition", "Condition.code.coding.code", "equals", Value.vStr "U07.1"⟩
        [⟨"Condition", Value.vNum 1⟩, ⟨"Condition", Value.vNum 2⟩]
      = [⟨"Condition", Value.vNum 1⟩] ++ (⟨"Condition", Value.vNum 2⟩ : Resource) :: []
    ∧ runCondition
        (engineExtract (fun r _ => match r.payload with
          | .vNum 1 => Except.ok (Value.vArr [Value.vStr "J06.9"])
          | _ => Except.ok (Value.vArr [Value.vStr "U07.1"])))
        (engineEval (fun _ _ => none))
        ⟨"Condition", "Condition.code.coding.code", "equals", Value.vStr "U07.1"⟩
        [⟨"Condition", Value.vNum 1⟩, ⟨"Condition", Value.vNum 2⟩]
      = ⟨⟨"Condition", "Condition.code.coding.code", "equals", Value.vStr "U07.1"⟩, true,
          extractFHIRData (fun r _ => match r.payload with
            | .vNum 1 => Except.ok (Value.vArr [Value.vStr "J06.9"])
            | _ => Except.ok (Value.vArr [Value.vStr "U07.1"]))
            ⟨"Condition", Value.vNum 2⟩ "Condition.code.coding.code",
          none⟩ := by
  have hm : matchingResources
      ⟨"Condition", "Condition.code.coding.code", "equals", Value.vStr "U07.1"⟩
      [⟨"Condition", Value.vNum 1⟩, ⟨"Condition", Value.vNum 2⟩]
      = [⟨"Condition", Value.vNum 1⟩] ++ (⟨"Condition", Value.vNum 2⟩ : Resource) :: [] := by
    simp [matchingResources]
  refine ⟨hm, ?_⟩
  exact (runCondition_scan_semantics
      (fun r _ => match r.payload with
        | .vNum 1 => Except.ok (Value.vArr [Value.vStr "J06.9"])
        | _ => Except.ok (Value.vArr [Value.vStr "U07.1"]))
      (fun _ _ => none)
      ⟨"Condition", "Condition.code.coding.code", "equals", Value.vStr "U07.1"⟩
      [⟨"Condition", Value.vNum 1⟩, ⟨"Condition", Value.vNum 2⟩]).1
    [⟨"Condition", Value.vNum 1⟩] ⟨"Condition", Value.vNum 2⟩ [] hm
    (by decide) (by decide)

/-- C5 witness: an Observation condition against a record set holding only
a Patient record. -/
theorem executeRule_no_matching_witness :
    (0 : Nat) < ([⟨"Observation", "Observation.code", "exists", Value.vNull⟩] : List Condition).length
    ∧ matchingResources
        (⟨"Observation", "Observation.code", "exists", Value.vNull⟩ : Condition)
        [⟨"Patient", Value.vNull⟩] = []
    ∧ ((executeRuleAgainstFHIR (engineExtract (fun _ _ => Except.ok (Value.vArr [])))
          (engineEval (fun _ _ => none))
          [⟨"Observation", "Observation.code", "exists", Value.vNull⟩]
          [⟨"Patient", Value.vNull⟩] .AND).executedConditions[0]?
        = some ⟨⟨"Observation", "Observation.code", "exists", Value.vNull⟩, false, Value.vNull,
            some ("No " ++ "Observation" ++ " resources found")⟩
      ∧ ("No " ++ "Observation" ++ " resources found") ≠ "") := by
  have hf : matchingResources
      (⟨"Observation", "Observation.code", "exists", Value.vNull⟩ : Condition)
      [⟨"Patient", Value.vNull⟩] = [] := by
    simp [matchingResources]
  exact ⟨by decide, hf,
    executeRule_no_matching (engineExtract (fun _ _ => Except.ok (Value.vArr [])))
      (engineEval (fun _ _ => none))
      [⟨"Observation", "Observation.code", "exists", Value.vNull⟩]
      [⟨"Patient", Value.vNull⟩] .AND 0 (by decide) hf⟩

/-- C6 witness: extraction throws `boom` on the only matching record; the
executor records `Execution error: boom` on that condition. -/
theorem executeRule_catches_errors_witness :
    matchingResources
        (⟨"Condition", "Condition.code", "equals", Value.vStr "x"⟩ : Condition)
        [⟨"Condition", Value.vNull⟩]
      = [] ++ (⟨"Condition", Value.vNull⟩ : Resource) :: []
    ∧ condStep (fun _ _ => Except.error "boom") (engineEval (fun _ _ => none))
        ⟨"Condition", "Condition.code", "equals", Value.vStr "x"⟩
        ⟨"Condition", Value.vNull⟩ = Except.error "boom"
    ∧ (∃ ev,
        (executeRuleAgainstFHIR (fun _ _ => Except.error "boom")
          (engineEval (fun _ _ => none))
          [⟨"Condition", "Condition.code", "equals", Value.vStr "x"⟩]
          [⟨"Condition", Value.vNull⟩] .AND).executedConditions[0]?
          = some ⟨⟨"Condition", "Condition.code", "equals", Value.vStr "x"⟩, false, ev,
              some ("Execution error: " ++ "boom")⟩) := by
  have hm : matchingResources
      (⟨"Condition", "Condition.code", "equals", Value.vStr "x"⟩ : Condition)
      [⟨"Condition", Value.vNull⟩]
      = [] ++ (⟨"Condition", Value.vNull⟩ : Resource) :: [] := by
    simp [matchingResources]
  have hstep : condStep (fun _ _ => Except.error "boom") (engineEval (fun _ _ => none))
      ⟨"Condition", "Condition.code", "equals", Value.vStr "x"⟩
      ⟨"Condition", Value.vNull⟩ = Except.error "boom" := rfl
  exact ⟨hm, hstep,
    (executeRule_catches_errors (fun _ _ => Except.error "boom")
      (engineEval (fun _ _ => none))
      [⟨"Condition", "Condition.code", "equals", Value.vStr "x"⟩]
      [⟨"Condition", Value.vNull⟩] .AND).2.1 0 (by decide)
      [] ⟨"Condition", Value.vNull⟩ [] "boom" hm (by simp) hstep⟩
